import Mathlib

/-!
Shallow embedding of the `tokenfactory_core` CosmWasm contract
(`src/contracts/tokenfactory_core/src/{contract.rs, state.rs, msg.rs}`).

Amounts are `Uint128` in the source; the contract performs no arithmetic
on them, so they are embedded as `Nat`.  Addresses and denominations are
strings, as in the source.  Storage is the single `Config` record
(`STATE : Item<Config>`), embedded as explicit state passing: every
entry point takes the loaded `Config` and returns the committed one.
`deps.api.addr_validate` and `set_contract_version` belong to the
cosmwasm-std environment (an external collaborator), and are embedded as
always succeeding.
-/

namespace TokenfactoryCore

/-- `cosmwasm_std::Coin`: a denomination string plus an amount. -/
structure Coin where
  denom : String
  amount : Nat
deriving DecidableEq, Repr

/-- `state.rs`: the sole persisted entity. -/
structure Config where
  manager : String
  allowed_mint_addresses : List String
  denoms : List String
deriving DecidableEq, Repr

/-- `error.rs` variants reachable from `contract.rs` (the file itself is
not under `src/`; the variants and their payloads are taken from their
construction sites in `contract.rs` and the spec's error list). -/
inductive ContractError where
  | InvalidDenom (denom : String) (message : String)
  | Unauthorized
  | InvalidFunds
deriving DecidableEq, Repr

/-- Outbound instructions: `TokenMsg::{MintTokens, BurnTokens, ChangeAdmin}`
from `token_bindings` and `cosmwasm_std::BankMsg::Send`, flattened into one
message type as they appear in a `Response<TokenFactoryMsg>`. -/
inductive Msg where
  | mintTokens (denom : String) (amount : Nat) (mint_to_address : String)
  | burnTokens (denom : String) (amount : Nat) (burn_from_address : String)
  | changeAdmin (denom : String) (new_admin_address : String)
  | bankSend (to_address : String) (amount : List Coin)
deriving DecidableEq, Repr

/-- `cosmwasm_std::Response`: attributes and outbound messages, in
emission order. -/
structure Response where
  attributes : List (String × String) := []
  messages : List Msg := []
deriving DecidableEq, Repr

/-- `msg.rs` / `tokenfactory_types::msg::ExecuteMsg`: the operation surface
matched in `execute`. -/
inductive ExecuteMsg where
  | Burn
  | Mint (address : String) (denom : List Coin)
  | TransferAdmin (denom : String) (new_address : String)
  | AddWhitelist (addresses : List String)
  | RemoveWhitelist (addresses : List String)
  | AddDenom (denoms : List String)
  | RemoveDenom (denoms : List String)
deriving DecidableEq, Repr

/-- `msg.rs`: `InstantiateMsg`. -/
structure InstantiateMsg where
  manager : Option String
  allowed_mint_addresses : List String
  denoms : List String
deriving DecidableEq, Repr

/-- Modelled from the spec: `is_contract_manager` lives in `helpers.rs`,
which is not under `src/`.  Spec §4.1: `requireManager(config, caller)`
succeeds iff `caller == config.manager`, else `Unauthorized`. -/
def is_contract_manager (state : Config) (sender : String) :
    Except ContractError Unit :=
  if sender = state.manager then .ok () else .error .Unauthorized

/-- Modelled from the spec: `is_whitelisted` lives in `helpers.rs`, which
is not under `src/`.  Spec §4.1: `requireWhitelisted(config, caller)`
succeeds iff `caller ∈ config.allowed_mint_addresses`, else
`Unauthorized`. -/
def is_whitelisted (state : Config) (sender : String) :
    Except ContractError Unit :=
  if sender ∈ state.allowed_mint_addresses then .ok () else .error .Unauthorized

/-- Modelled from the spec: `mint_factory_token_messages` lives in
`helpers.rs`, which is not under `src/`.  Spec §4.3: for each
(denomination, amount) pair one mint instruction naming the recipient as
beneficiary; no membership check against `config.denoms`; zero amounts
passed through unchanged. -/
def mint_factory_token_messages (address : String) (denoms : List Coin) :
    List Msg :=
  denoms.map (fun c => .mintTokens c.denom c.amount address)

/-- Modelled from the spec: `pretty_denoms_output` lives in `helpers.rs`,
which is not under `src/`.  Spec §4.3 only calls it descriptive metadata
for observability; embedded as a comma-separated "amount denom" rendering.
No claim depends on its exact text. -/
def pretty_denoms_output (denoms : List Coin) : String :=
  String.intercalate ", "
    (denoms.map (fun c => toString c.amount ++ c.denom))

/-- Rust `d.starts_with("factory/")`, embedded over the string's
character sequence (Lean's `String.startsWith` is defined by well-founded
recursion and does not reduce in the kernel). -/
def startsWithFactory (d : String) : Bool :=
  "factory/".data.isPrefixOf d.data

/-- The denom-prefix loop of `instantiate` (contract.rs lines 33-42):
the first denomination not starting with `"factory/"` aborts with
`InvalidDenom`. -/
def checkDenomPrefixes : List String → Except ContractError Unit
  | [] => .ok ()
  | d :: rest =>
    if !(startsWithFactory d) then
      .error (.InvalidDenom d "Denom must start with 'factory/'")
    else
      checkDenomPrefixes rest

/-- `instantiate` (contract.rs lines 20-60): validate every denom's
prefix, default the manager to the sender, persist the `Config`. -/
def instantiate (sender : String) (msg : InstantiateMsg) :
    Except ContractError Config := do
  checkDenomPrefixes msg.denoms
  let manager := msg.manager.getD sender
  pure { manager := manager
         allowed_mint_addresses := msg.allowed_mint_addresses
         denoms := msg.denoms }

/-- The add loop shared by `AddWhitelist` (contract.rs lines 100-105) and
`AddDenom` (lines 144-155): push each new entry not already contained. -/
def addToList (updated : List String) (news : List String) : List String :=
  news.foldl (fun acc new => if new ∈ acc then acc else acc ++ [new]) updated

/-- The remove loop shared by `RemoveWhitelist` (contract.rs lines
121-124) and `RemoveDenom` (lines 171-174): retain entries different from
each listed one. -/
def removeFromList (updated : List String) (removes : List String) :
    List String :=
  removes.foldl (fun acc remove => acc.filter (fun a => a ≠ remove)) updated

/-- `execute_transfer_admin` (contract.rs lines 186-225). -/
def execute_transfer_admin (state : Config) (sender denom new_addr : String) :
    Except ContractError (Config × Response) := do
  is_contract_manager state sender
  let state_denom : Option String := state.denoms.find? (fun d => d = denom)
  let state' :=
    match state_denom with
    | some sd => { state with denoms := state.denoms.filter (fun d => d ≠ sd) }
    | none => state
  pure (state',
    { attributes := [("method", "execute_transfer_admin"),
                     ("new_admin", new_addr)]
      messages := [.changeAdmin denom new_addr] })

/-- `execute_mint` (contract.rs lines 228-245): whitelist-gated; no
configuration change. -/
def execute_mint (state : Config) (sender address : String)
    (denoms : List Coin) : Except ContractError Response := do
  is_whitelisted state sender
  let mint_msgs := mint_factory_token_messages address denoms
  pure { attributes := [("method", "execute_mint"),
                        ("to_address", address),
                        ("denoms", pretty_denoms_output denoms)]
         messages := mint_msgs }

/-- `execute_burn` (contract.rs lines 248-287): permissionless; fails on
empty funds; partitions funds by membership of their denom in
`state.denoms`; emits the bank return first, then one burn per managed
coin. -/
def execute_burn (state : Config) (contract_address sender : String)
    (funds : List Coin) : Except ContractError Response :=
  if funds.isEmpty then
    .error .InvalidFunds
  else
    let parts := funds.partition
      (fun coin => state.denoms.any (fun d => d = coin.denom))
    let factory_denoms := parts.1
    let send_back := parts.2
    let burn_msgs : List Msg := factory_denoms.map
      (fun coin => .burnTokens coin.denom coin.amount contract_address)
    .ok { attributes := [("method", "execute_burn")]
          messages := .bankSend sender send_back :: burn_msgs }

/-- `execute` (contract.rs lines 65-183): dispatch over `ExecuteMsg`,
returning the committed configuration together with the response. -/
def execute (state : Config) (contract_address sender : String)
    (funds : List Coin) (msg : ExecuteMsg) :
    Except ContractError (Config × Response) :=
  match msg with
  | .Burn => do
    let r ← execute_burn state contract_address sender funds
    pure (state, r)
  | .Mint address denom => do
    let r ← execute_mint state sender address denom
    pure (state, r)
  | .TransferAdmin denom new_address =>
    execute_transfer_admin state sender denom new_address
  | .AddWhitelist addresses => do
    is_contract_manager state sender
    let updated := addToList state.allowed_mint_addresses addresses
    pure ({ state with allowed_mint_addresses := updated },
      { attributes := [("method", "add_whitelist")], messages := [] })
  | .RemoveWhitelist addresses => do
    is_contract_manager state sender
    let updated := removeFromList state.allowed_mint_addresses addresses
    pure ({ state with allowed_mint_addresses := updated },
      { attributes := [("method", "remove_whitelist")], messages := [] })
  | .AddDenom denoms => do
    is_contract_manager state sender
    let updated_denoms := addToList state.denoms denoms
    pure ({ state with denoms := updated_denoms },
      { attributes := [("method", "add_denom")], messages := [] })
  | .RemoveDenom denoms => do
    is_contract_manager state sender
    let updated_denoms := removeFromList state.denoms denoms
    pure ({ state with denoms := updated_denoms },
      { attributes := [("method", "remove_denom")], messages := [] })

/-- `query` (contract.rs lines 291-298): `GetConfig` returns the loaded
state (binary serialization elided). -/
def query (state : Config) : Config :=
  state

/-- The operations of `execute` that are gated by `is_contract_manager`:
everything except `Burn` and `Mint`. -/
def isManagerOnly : ExecuteMsg → Prop
  | .TransferAdmin _ _ => True
  | .AddWhitelist _ => True
  | .RemoveWhitelist _ => True
  | .AddDenom _ => True
  | .RemoveDenom _ => True
  | _ => False

/-! ## Supporting lemmas -/

lemma checkDenomPrefixes_ok_iff (l : List String) :
    checkDenomPrefixes l = .ok () ↔ ∀ d ∈ l, startsWithFactory d := by
  induction l with
  | nil => simp [checkDenomPrefixes]
  | cons d rest ih =>
    by_cases hd : startsWithFactory d
    · simp [checkDenomPrefixes, hd, ih]
    · simp [checkDenomPrefixes, hd]

lemma checkDenomPrefixes_error_iff (l : List String) :
    (∃ d ∈ l, ¬ startsWithFactory d) ↔
      ∃ d m, checkDenomPrefixes l = .error (.InvalidDenom d m) := by
  induction l with
  | nil => simp [checkDenomPrefixes]
  | cons d rest ih =>
    by_cases hd : startsWithFactory d
    · simp only [Bool.not_eq_true] at ih ⊢
      simp [checkDenomPrefixes, hd, ih]
    · simp [checkDenomPrefixes, hd]

lemma addToList_cons (acc : List String) (y : String) (L : List String) :
    addToList acc (y :: L) =
      addToList (if y ∈ acc then acc else acc ++ [y]) L := rfl

lemma mem_addToList (L acc : List String) (x : String) :
    x ∈ addToList acc L ↔ x ∈ acc ∨ x ∈ L := by
  induction L generalizing acc with
  | nil => simp [addToList]
  | cons y L ih =>
    rw [addToList_cons]
    by_cases hy : y ∈ acc
    · rw [if_pos hy, ih]
      simp only [List.mem_cons]
      constructor
      · tauto
      · rintro (h | rfl | h) <;> tauto
    · rw [if_neg hy, ih]
      simp only [List.mem_append, List.mem_cons, List.mem_singleton]
      tauto

lemma addToList_eq_self (L acc : List String) (h : ∀ x ∈ L, x ∈ acc) :
    addToList acc L = acc := by
  induction L with
  | nil => rfl
  | cons y L ih =>
    rw [addToList_cons, if_pos (h y (by simp))]
    exact ih fun x hx => h x (by simp [hx])

lemma addToList_nodup (L acc : List String) (h : acc.Nodup) :
    (addToList acc L).Nodup := by
  induction L generalizing acc with
  | nil => exact h
  | cons y L ih =>
    rw [addToList_cons]
    by_cases hy : y ∈ acc
    · rw [if_pos hy]
      exact ih acc h
    · rw [if_neg hy]
      refine ih _ ?_
      simp [List.nodup_append, h, hy]

lemma removeFromList_cons (acc : List String) (y : String) (L : List String) :
    removeFromList acc (y :: L) =
      removeFromList (acc.filter (fun a => a ≠ y)) L := rfl

lemma removeFromList_nodup (L acc : List String) (h : acc.Nodup) :
    (removeFromList acc L).Nodup := by
  induction L generalizing acc with
  | nil => exact h
  | cons y L ih =>
    rw [removeFromList_cons]
    exact ih _ (h.filter _)

lemma denoms_any_iff (denoms : List String) (s : String) :
    (denoms.any fun d => d = s) = true ↔ s ∈ denoms := by
  rw [List.any_eq_true]
  constructor
  · rintro ⟨d, hd, he⟩
    exact (of_decide_eq_true he) ▸ hd
  · intro hs
    exact ⟨s, hs, by simp⟩

end TokenfactoryCore

namespace TokenfactoryCore

/-! ## Claim theorems -/

/-- C2: Burn with an empty attached-funds list fails with `InvalidFunds`
(hence emits no instructions); with non-empty attached funds it succeeds
for every caller — no caller-identity check is performed. -/
theorem burn_empty_funds_and_permissionless (state : Config)
    (contract_address sender : String) (funds : List Coin)
    (h : funds ≠ []) :
    execute_burn state contract_address sender [] = .error .InvalidFunds ∧
    ∃ r, execute_burn state contract_address sender funds = .ok r := by
  constructor
  · rfl
  · unfold execute_burn
    rw [if_neg (by simpa [List.isEmpty_iff] using h)]
    exact ⟨_, rfl⟩

/-- Witness for C2 at a concrete caller and fund list. -/
theorem burn_empty_funds_and_permissionless_witness :
    execute_burn ⟨"m", [], ["factory/x"]⟩ "contract" "anyone" []
        = .error .InvalidFunds ∧
    ∃ r, execute_burn ⟨"m", [], ["factory/x"]⟩ "contract" "anyone"
        [⟨"uatom", 5⟩] = .ok r :=
  burn_empty_funds_and_permissionless ⟨"m", [], ["factory/x"]⟩
    "contract" "anyone" [⟨"uatom", 5⟩] (by decide)

/-- C3: Mint succeeds iff the caller is in `allowed_mint_addresses`: on
failure it returns `Unauthorized` (emitting nothing), on success it emits
one mint instruction per coin naming the recipient, with no check that
any requested denomination is in `config.denoms`. -/
theorem mint_whitelist_gate (state : Config) (sender address : String)
    (denoms : List Coin) :
    (sender ∈ state.allowed_mint_addresses →
      execute_mint state sender address denoms =
        .ok { attributes := [("method", "execute_mint"),
                             ("to_address", address),
                             ("denoms", pretty_denoms_output denoms)]
              messages :=
                denoms.map (fun c => .mintTokens c.denom c.amount address) }) ∧
    (sender ∉ state.allowed_mint_addresses →
      execute_mint state sender address denoms = .error .Unauthorized) := by
  constructor
  · intro h
    simp [execute_mint, is_whitelisted, h, mint_factory_token_messages]
  · intro h
    simp [execute_mint, is_whitelisted, h]

/-- Witness for C3: a whitelisted caller mints an untracked denom; a
non-whitelisted caller is refused. -/
theorem mint_whitelist_gate_witness :
    execute_mint ⟨"m", ["addrX"], ["factory/x"]⟩ "addrX" "R"
        [⟨"uatom", 100⟩] =
      .ok { attributes := [("method", "execute_mint"),
                           ("to_address", "R"),
                           ("denoms", pretty_denoms_output [⟨"uatom", 100⟩])]
            messages := [.mintTokens "uatom" 100 "R"] } ∧
    execute_mint ⟨"m", ["addrX"], ["factory/x"]⟩ "other" "R"
        [⟨"uatom", 100⟩] = .error .Unauthorized :=
  ⟨(mint_whitelist_gate ⟨"m", ["addrX"], ["factory/x"]⟩ "addrX" "R"
      [⟨"uatom", 100⟩]).1 (by decide),
   (mint_whitelist_gate ⟨"m", ["addrX"], ["factory/x"]⟩ "other" "R"
      [⟨"uatom", 100⟩]).2 (by decide)⟩

/-- C4: initialization fails with `InvalidDenom` iff some supplied denom
does not start with `"factory/"`; when all do, it succeeds and persists
the configuration, the manager defaulting to the caller when none is
supplied. -/
theorem instantiate_prefix_rule (sender : String) (msg : InstantiateMsg) :
    ((∃ d ∈ msg.denoms, ¬ startsWithFactory d) ↔
      ∃ d m, instantiate sender msg = .error (.InvalidDenom d m)) ∧
    ((∀ d ∈ msg.denoms, startsWithFactory d) →
      instantiate sender msg =
        .ok { manager := msg.manager.getD sender
              allowed_mint_addresses := msg.allowed_mint_addresses
              denoms := msg.denoms }) := by
  constructor
  · rw [checkDenomPrefixes_error_iff]
    constructor
    · rintro ⟨d, m, hdm⟩
      exact ⟨d, m, by simp [instantiate, hdm]⟩
    · rintro ⟨d, m, hdm⟩
      refine ⟨d, m, ?_⟩
      rcases h : checkDenomPrefixes msg.denoms with e | u
      · simpa [instantiate, h] using hdm
      · simp [instantiate, h] at hdm
  · intro h
    have hok : checkDenomPrefixes msg.denoms = .ok () :=
      (checkDenomPrefixes_ok_iff msg.denoms).2 h
    simp [instantiate, hok]

/-- Witness for C4: a bad denom is rejected; a good list with no explicit
manager stores the caller as manager. -/
theorem instantiate_prefix_rule_witness :
    (∃ d m, instantiate "addr1" ⟨none, [], ["uatom"]⟩ =
      .error (.InvalidDenom d m)) ∧
    instantiate "addr1" ⟨none, [], ["factory/juno1abc/test"]⟩ =
      .ok ⟨"addr1", [], ["factory/juno1abc/test"]⟩ :=
  ⟨(instantiate_prefix_rule "addr1" ⟨none, [], ["uatom"]⟩).1.1
      ⟨"uatom", by decide, by decide⟩,
   (instantiate_prefix_rule "addr1" ⟨none, [], ["factory/juno1abc/test"]⟩).2
      (by decide)⟩

/-- C5: every manager-only operation invoked by a caller different from
`config.manager` fails with `Unauthorized`; the error result carries no
committed configuration and no instructions, so the persisted
configuration is unchanged. -/
theorem manager_only_unauthorized (state : Config)
    (contract_address sender : String) (funds : List Coin)
    (msg : ExecuteMsg) (hmsg : isManagerOnly msg)
    (hne : sender ≠ state.manager) :
    execute state contract_address sender funds msg =
      .error .Unauthorized := by
  cases msg with
  | TransferAdmin denom new_address =>
    simp [execute, execute_transfer_admin, is_contract_manager, hne]
  | AddWhitelist addresses =>
    simp [execute, is_contract_manager, hne]
  | RemoveWhitelist addresses =>
    simp [execute, is_contract_manager, hne]
  | AddDenom denoms =>
    simp [execute, is_contract_manager, hne]
  | RemoveDenom denoms =>
    simp [execute, is_contract_manager, hne]
  | Burn => exact absurd hmsg (by simp [isManagerOnly])
  | Mint address denom => exact absurd hmsg (by simp [isManagerOnly])

/-- Witness for C5 at a concrete non-manager caller. -/
theorem manager_only_unauthorized_witness :
    execute ⟨"m", [], ["factory/x"]⟩ "contract" "eve" []
        (.AddDenom ["uatom"]) = .error .Unauthorized :=
  manager_only_unauthorized ⟨"m", [], ["factory/x"]⟩ "contract" "eve" []
    (.AddDenom ["uatom"]) (by simp [isManagerOnly]) (by decide)

/-- C8: AddDenom performs no prefix validation: for every string list,
a manager-invoked AddDenom succeeds and set-unions the list into
`config.denoms`, so the tracked set may afterwards contain entries
lacking the `"factory/"` prefix. -/
theorem add_denom_no_prefix_validation (state : Config)
    (contract_address sender : String) (funds : List Coin)
    (denoms : List String) (h : sender = state.manager) :
    execute state contract_address sender funds (.AddDenom denoms) =
      .ok ({ state with denoms := addToList state.denoms denoms },
           { attributes := [("method", "add_denom")], messages := [] }) := by
  simp [execute, is_contract_manager, h]

/-- Witness for C8: the manager adds `"uatom"` (no prefix); the call
succeeds and `"uatom"` is afterwards in the tracked set. -/
theorem add_denom_no_prefix_validation_witness :
    execute ⟨"m", [], ["factory/x"]⟩ "contract" "m" []
        (.AddDenom ["uatom"]) =
      .ok (⟨"m", [], ["factory/x", "uatom"]⟩,
           { attributes := [("method", "add_denom")], messages := [] }) ∧
    "uatom" ∈ (⟨"m", [], ["factory/x", "uatom"]⟩ : Config).denoms :=
  ⟨add_denom_no_prefix_validation ⟨"m", [], ["factory/x"]⟩ "contract" "m" []
      ["uatom"] rfl,
   by decide⟩

/-- C1: on non-empty funds, Burn partitions the attached funds into a
managed and an unmanaged part: an entry is in the managed part iff it is
an attached entry whose denomination is in `config.denoms`; the parts
are disjoint and their multiset union is exactly the attached funds; one
burn instruction per managed entry (denom, amount, contract's own
address as burn source) and exactly one return transfer of the whole
unmanaged part to the caller are emitted. -/
theorem burn_partition_spec (state : Config) (contract_address sender : String)
    (funds : List Coin) (h : funds ≠ []) :
    ∃ managed unmanaged : List Coin,
      execute_burn state contract_address sender funds =
        .ok { attributes := [("method", "execute_burn")]
              messages := .bankSend sender unmanaged ::
                managed.map
                  (fun c => .burnTokens c.denom c.amount contract_address) } ∧
      (∀ c, c ∈ managed ↔ c ∈ funds ∧ c.denom ∈ state.denoms) ∧
      (∀ c, c ∈ unmanaged ↔ c ∈ funds ∧ c.denom ∉ state.denoms) ∧
      (∀ c, c ∈ managed → c ∉ unmanaged) ∧
      ((managed ++ unmanaged : List Coin) : Multiset Coin) =
        (funds : Multiset Coin) := by
  refine ⟨funds.filter (fun c => state.denoms.any (fun d => d = c.denom)),
          funds.filter (fun c => !state.denoms.any (fun d => d = c.denom)),
          ?_, ?_, ?_, ?_, ?_⟩
  · unfold execute_burn
    rw [if_neg (by simpa [List.isEmpty_iff] using h)]
    rw [List.partition_eq_filter_filter]
    rfl
  · intro c
    simp [List.mem_filter, denoms_any_iff]
  · intro c
    simp [List.mem_filter, denoms_any_iff]
    intro _
    constructor
    · intro hall hmem
      exact hall c.denom hmem rfl
    · intro hnd x hx he
      exact hnd (he ▸ hx)
  · intro c hm hu
    simp only [List.mem_filter] at hm hu
    rw [hm.2] at hu
    simp at hu
  · rw [Multiset.coe_eq_coe]
    exact List.filter_append_perm _ funds

/-- Witness for C1 at the spec's concrete Burn scenario: one tracked and
one untracked coin. -/
theorem burn_partition_spec_witness :
    ∃ managed unmanaged : List Coin,
      execute_burn ⟨"m", [], ["factory/juno1abc/test"]⟩ "contract" "S"
          [⟨"factory/juno1abc/test", 50⟩, ⟨"uatom", 10⟩] =
        .ok { attributes := [("method", "execute_burn")]
              messages := .bankSend "S" unmanaged ::
                managed.map
                  (fun c => .burnTokens c.denom c.amount "contract") } ∧
      (∀ c, c ∈ managed ↔
        c ∈ [(⟨"factory/juno1abc/test", 50⟩ : Coin), ⟨"uatom", 10⟩] ∧
          c.denom ∈ ["factory/juno1abc/test"]) ∧
      (∀ c, c ∈ unmanaged ↔
        c ∈ [(⟨"factory/juno1abc/test", 50⟩ : Coin), ⟨"uatom", 10⟩] ∧
          c.denom ∉ ["factory/juno1abc/test"]) ∧
      (∀ c, c ∈ managed → c ∉ unmanaged) ∧
      ((managed ++ unmanaged : List Coin) : Multiset Coin) =
        ([⟨"factory/juno1abc/test", 50⟩, ⟨"uatom", 10⟩] : List Coin) :=
  burn_partition_spec ⟨"m", [], ["factory/juno1abc/test"]⟩ "contract" "S"
    [⟨"factory/juno1abc/test", 50⟩, ⟨"uatom", 10⟩] (by decide)

/-- C6: a manager-invoked AddWhitelist (respectively AddDenom) applied
twice with the same list equals a single application; adding an entry
already present is a no-op, not an error; and adding introduces no
duplicate into a duplicate-free set. -/
theorem add_ops_idempotent (state : Config) (contract_address sender : String)
    (funds : List Coin) (L : List String) (h : sender = state.manager) :
    ((execute state contract_address sender funds (.AddWhitelist L)).bind
        fun p => execute p.1 contract_address sender funds (.AddWhitelist L)) =
      execute state contract_address sender funds (.AddWhitelist L) ∧
    ((execute state contract_address sender funds (.AddDenom L)).bind
        fun p => execute p.1 contract_address sender funds (.AddDenom L)) =
      execute state contract_address sender funds (.AddDenom L) ∧
    (∀ x ∈ state.allowed_mint_addresses,
      addToList state.allowed_mint_addresses [x] =
        state.allowed_mint_addresses) ∧
    (∀ x ∈ state.denoms, addToList state.denoms [x] = state.denoms) ∧
    (state.allowed_mint_addresses.Nodup →
      (addToList state.allowed_mint_addresses L).Nodup) ∧
    (state.denoms.Nodup → (addToList state.denoms L).Nodup) := by
  have hfixA : addToList (addToList state.allowed_mint_addresses L) L =
      addToList state.allowed_mint_addresses L :=
    addToList_eq_self L _ fun x hx => (mem_addToList L _ x).2 (Or.inr hx)
  have hfixD : addToList (addToList state.denoms L) L =
      addToList state.denoms L :=
    addToList_eq_self L _ fun x hx => (mem_addToList L _ x).2 (Or.inr hx)
  refine ⟨?_, ?_, ?_, ?_, addToList_nodup L _, addToList_nodup L _⟩
  · simp [execute, is_contract_manager, h, hfixA, Except.bind, Except.map]
  · simp [execute, is_contract_manager, h, hfixD, Except.bind, Except.map]
  · intro x hx
    exact addToList_eq_self [x] _ (by simpa using hx)
  · intro x hx
    exact addToList_eq_self [x] _ (by simpa using hx)

/-- Witness for C6 at the spec's concrete scenario 2. -/
theorem add_ops_idempotent_witness :
    ((execute ⟨"m", [], []⟩ "contract" "m" []
        (.AddWhitelist ["addrX", "addrY"])).bind
      fun p => execute p.1 "contract" "m" []
        (.AddWhitelist ["addrX", "addrY"])) =
      execute ⟨"m", [], []⟩ "contract" "m" []
        (.AddWhitelist ["addrX", "addrY"]) ∧
    (∀ x ∈ (⟨"m", ["addrX"], []⟩ : Config).allowed_mint_addresses,
      addToList (⟨"m", ["addrX"], []⟩ : Config).allowed_mint_addresses [x] =
        (⟨"m", ["addrX"], []⟩ : Config).allowed_mint_addresses) := by
  constructor
  · exact (add_ops_idempotent ⟨"m", [], []⟩ "contract" "m" []
      ["addrX", "addrY"] rfl).1
  · exact (add_ops_idempotent ⟨"m", ["addrX"], []⟩ "contract" "m" []
      [] rfl).2.2.1

/-- C7: a manager-invoked TransferAdmin removes the denom from
`config.denoms` when present (leaving all other entries unchanged, in
order), leaves the tracked set untouched when absent, leaves the manager
and whitelist unchanged, emits exactly one change-admin instruction
naming the denom and the new admin, and the denom is absent from the
tracked set afterwards. -/
theorem transfer_admin_spec (state : Config) (sender denom new_addr : String)
    (h : sender = state.manager) :
    ∃ ns r, execute_transfer_admin state sender denom new_addr =
        .ok (ns, r) ∧
      ns.manager = state.manager ∧
      ns.allowed_mint_addresses = state.allowed_mint_addresses ∧
      (denom ∈ state.denoms →
        ns.denoms = state.denoms.filter (fun d => d ≠ denom)) ∧
      (denom ∉ state.denoms → ns.denoms = state.denoms) ∧
      denom ∉ ns.denoms ∧
      r.messages = [.changeAdmin denom new_addr] := by
  rcases hfind : state.denoms.find? (fun d => d = denom) with _ | sd
  · have hmem : denom ∉ state.denoms := by
      rw [List.find?_eq_none] at hfind
      intro hmem
      exact (by simpa using hfind denom hmem : ¬ denom = denom) rfl
    refine ⟨state,
      { attributes := [("method", "execute_transfer_admin"),
                       ("new_admin", new_addr)]
        messages := [.changeAdmin denom new_addr] },
      ?_, rfl, rfl, fun hc => absurd hc hmem, fun _ => rfl, hmem, rfl⟩
    simp [execute_transfer_admin, is_contract_manager, h, hfind]
  · have hsd : sd = denom := by
      have := List.find?_some hfind
      simpa using this
    subst hsd
    refine ⟨{ state with denoms := state.denoms.filter (fun d => d ≠ sd) },
      { attributes := [("method", "execute_transfer_admin"),
                       ("new_admin", new_addr)]
        messages := [.changeAdmin sd new_addr] },
      ?_, rfl, rfl, fun _ => rfl, ?_, ?_, rfl⟩
    · simp [execute_transfer_admin, is_contract_manager, h, hfind]
    · intro habs
      exact absurd (List.mem_of_find?_eq_some hfind) habs
    · simp only [List.mem_filter, decide_eq_true_eq]
      rintro ⟨-, hne⟩
      simp at hne

/-- C9 counterexample: initialization accepts a repeated whitelist entry
verbatim, and a subsequent manager mutation (AddWhitelist) commits a
configuration whose whitelist still contains the duplicate; so a
reachable post-mutation configuration violates the no-duplicates
invariant as claimed. -/
theorem dup_survives_mutation :
    instantiate "m" ⟨some "m", ["a", "a"], []⟩ =
      .ok ⟨"m", ["a", "a"], []⟩ ∧
    execute ⟨"m", ["a", "a"], []⟩ "contract" "m" [] (.AddWhitelist ["b"]) =
      .ok (⟨"m", ["a", "a", "b"], []⟩,
           { attributes := [("method", "add_whitelist")], messages := [] }) ∧
    ¬ (⟨"m", ["a", "a", "b"], []⟩ :
        Config).allowed_mint_addresses.Nodup := by
  refine ⟨rfl, rfl, by decide⟩

/-- C9 amended: every mutating operation preserves duplicate-freeness of
`allowed_mint_addresses` and `denoms`; configurations whose lists were
duplicate-free stay so, but initialization inputs with repeated entries
are stored verbatim and mutations do not remove the duplicates. -/
theorem mutation_preserves_nodup (state : Config)
    (contract_address sender : String) (funds : List Coin)
    (msg : ExecuteMsg) (ns : Config) (r : Response)
    (h1 : state.allowed_mint_addresses.Nodup) (h2 : state.denoms.Nodup)
    (hexec : execute state contract_address sender funds msg = .ok (ns, r)) :
    ns.allowed_mint_addresses.Nodup ∧ ns.denoms.Nodup := by
  cases msg with
  | Burn =>
    rcases hb : execute_burn state contract_address sender funds with e | rr
    · simp [execute, hb, bind, Except.bind] at hexec
    · simp [execute, hb, bind, Except.bind, pure, Except.pure] at hexec
      obtain ⟨h3, -⟩ := hexec
      subst h3
      exact ⟨h1, h2⟩
  | Mint address denom =>
    rcases hb : execute_mint state sender address denom with e | rr
    · simp [execute, hb, bind, Except.bind] at hexec
    · simp [execute, hb, bind, Except.bind, pure, Except.pure] at hexec
      obtain ⟨h3, -⟩ := hexec
      subst h3
      exact ⟨h1, h2⟩
  | TransferAdmin denom new_address =>
    by_cases hm : sender = state.manager
    · rcases hf : state.denoms.find? (fun d => d = denom) with _ | sd
      · simp [execute, execute_transfer_admin, is_contract_manager, hm, hf,
          bind, Except.bind, pure, Except.pure] at hexec
        obtain ⟨h3, -⟩ := hexec
        subst h3
        exact ⟨h1, h2⟩
      · simp [execute, execute_transfer_admin, is_contract_manager, hm, hf,
          bind, Except.bind, pure, Except.pure] at hexec
        obtain ⟨h3, -⟩ := hexec
        subst h3
        exact ⟨h1, h2.filter _⟩
    · simp [execute, execute_transfer_admin, is_contract_manager, hm,
        bind, Except.bind] at hexec
  | AddWhitelist addresses =>
    by_cases hm : sender = state.manager
    · simp [execute, is_contract_manager, hm, bind, Except.bind, pure,
        Except.pure] at hexec
      obtain ⟨h3, -⟩ := hexec
      subst h3
      exact ⟨addToList_nodup _ _ h1, h2⟩
    · simp [execute, is_contract_manager, hm, bind, Except.bind] at hexec
  | RemoveWhitelist addresses =>
    by_cases hm : sender = state.manager
    · simp [execute, is_contract_manager, hm, bind, Except.bind, pure,
        Except.pure] at hexec
      obtain ⟨h3, -⟩ := hexec
      subst h3
      exact ⟨removeFromList_nodup _ _ h1, h2⟩
    · simp [execute, is_contract_manager, hm, bind, Except.bind] at hexec
  | AddDenom denoms =>
    by_cases hm : sender = state.manager
    · simp [execute, is_contract_manager, hm, bind, Except.bind, pure,
        Except.pure] at hexec
      obtain ⟨h3, -⟩ := hexec
      subst h3
      exact ⟨h1, addToList_nodup _ _ h2⟩
    · simp [execute, is_contract_manager, hm, bind, Except.bind] at hexec
  | RemoveDenom denoms =>
    by_cases hm : sender = state.manager
    · simp [execute, is_contract_manager, hm, bind, Except.bind, pure,
        Except.pure] at hexec
      obtain ⟨h3, -⟩ := hexec
      subst h3
      exact ⟨h1, removeFromList_nodup _ _ h2⟩
    · simp [execute, is_contract_manager, hm, bind, Except.bind] at hexec

/-- Witness for the amended C9: a duplicate-free configuration stays
duplicate-free across a concrete AddWhitelist mutation. -/
theorem mutation_preserves_nodup_witness :
    (⟨"m", ["a", "b"], ["factory/x"]⟩ :
      Config).allowed_mint_addresses.Nodup ∧
    (⟨"m", ["a", "b"], ["factory/x"]⟩ : Config).denoms.Nodup :=
  mutation_preserves_nodup ⟨"m", ["a"], ["factory/x"]⟩ "contract" "m" []
    (.AddWhitelist ["a", "b"]) ⟨"m", ["a", "b"], ["factory/x"]⟩
    { attributes := [("method", "add_whitelist")], messages := [] }
    (by decide) (by decide) rfl

/-- C10: initialization stores the supplied `allowed_mint_addresses` and
`denoms` lists verbatim — no deduplication, no reordering — and GetConfig
returns the stored configuration unchanged; in particular an input whose
denoms list repeats a `"factory/"`-prefixed string is persisted with the
repetition. -/
theorem instantiate_stores_verbatim (sender : String) (msg : InstantiateMsg)
    (h : ∀ d ∈ msg.denoms, startsWithFactory d) :
    instantiate sender msg =
      .ok { manager := msg.manager.getD sender
            allowed_mint_addresses := msg.allowed_mint_addresses
            denoms := msg.denoms } ∧
    query { manager := msg.manager.getD sender
            allowed_mint_addresses := msg.allowed_mint_addresses
            denoms := msg.denoms } =
      { manager := msg.manager.getD sender
        allowed_mint_addresses := msg.allowed_mint_addresses
        denoms := msg.denoms } := by
  refine ⟨?_, rfl⟩
  have hok : checkDenomPrefixes msg.denoms = .ok () :=
    (checkDenomPrefixes_ok_iff msg.denoms).2 h
  simp [instantiate, hok]

/-- Witness for C10: a denoms list repeating `"factory/a"` is stored and
queried with the string occurring twice. -/
theorem instantiate_stores_verbatim_witness :
    (instantiate "addr1" ⟨none, [], ["factory/a", "factory/a"]⟩ =
       .ok ⟨"addr1", [], ["factory/a", "factory/a"]⟩ ∧
     query ⟨"addr1", [], ["factory/a", "factory/a"]⟩ =
       ⟨"addr1", [], ["factory/a", "factory/a"]⟩) ∧
    (query ⟨"addr1", [], ["factory/a", "factory/a"]⟩).denoms.count
        "factory/a" = 2 :=
  ⟨instantiate_stores_verbatim "addr1"
      ⟨none, [], ["factory/a", "factory/a"]⟩ (by decide),
   by decide⟩

/-- Witness for C7: the spec's concrete scenario 5, on a tracked denom. -/
theorem transfer_admin_spec_witness :
    ∃ ns r, execute_transfer_admin
        ⟨"m", [], ["factory/juno1abc/test"]⟩ "m"
        "factory/juno1abc/test" "addr2" = .ok (ns, r) ∧
      ns.manager = "m" ∧
      ns.allowed_mint_addresses = [] ∧
      ("factory/juno1abc/test" ∈ ["factory/juno1abc/test"] →
        ns.denoms = ["factory/juno1abc/test"].filter
          (fun d => d ≠ "factory/juno1abc/test")) ∧
      ("factory/juno1abc/test" ∉ ["factory/juno1abc/test"] →
        ns.denoms = ["factory/juno1abc/test"]) ∧
      "factory/juno1abc/test" ∉ ns.denoms ∧
      r.messages = [.changeAdmin "factory/juno1abc/test" "addr2"] :=
  transfer_admin_spec ⟨"m", [], ["factory/juno1abc/test"]⟩ "m"
    "factory/juno1abc/test" "addr2" rfl

end TokenfactoryCore
